import Mathlib

/-!
Verification of the checkpoint-and-rollback engine.

This file gives a shallow embedding, in Lean 4, of the parts of the
repository that the verified properties talk about:

* `rollback_portocal/protocol.py` and `rollback_portocal/registry.py`
  (tool specs, the invocation track, registration, rollback) in the
  namespace `RollbackPortocal`;
* `src/checkpoints/checkpoint.py` and `src/agents/rollback_agent.py`
  (checkpoints, the rollback-to-checkpoint tool, forking from a
  checkpoint) in the namespace `Engine`;
* `src/database/repositories/internal_session_repository.py` and
  `src/database/repositories/checkpoint_repository.py` (the session
  current-flag state machine and auto-checkpoint pruning) in the
  namespaces `SessionRepo` and `CkptRepo`.

Python dictionaries are modelled as insertion-ordered association
lists, SQL tables as lists of rows, wall-clock instants as natural
numbers, and handlers that may raise as functions into `Except`.
Where object identity matters (the shallow `dict.copy()` performed
when restoring a snapshot) a small heap of references is used.
-/

namespace RollbackPortocal

/-- Tool arguments: a Python `Dict[str, Any]` whose values are opaque
to the engine, modelled as an association list of strings. -/
abbrev Args := List (String × String)

/-- Forward result: opaque value, or `none` (Python `None`) for a
failed forward invocation. -/
abbrev TResult := Option String

/-- `CHECKPOINT_TOOL_NAMES` from `protocol.py`: tools that act as
logical checkpoints and do not require reverse handlers. -/
def CHECKPOINT_TOOL_NAMES : List String :=
  [("save_checkpoint"), ("checkpoint"),
   ("create_checkpoint_tool"), ("list_checkpoints_tool"),
   ("rollback_to_checkpoint_tool"), ("delete_checkpoint_tool"),
   ("get_checkpoint_info_tool"), ("cleanup_auto_checkpoints_tool")]

/-- A reverse handler receives the original args and the forward
result; raising an exception is modelled by `Except.error`. -/
abbrev ReverseTool := Args → TResult → Except String Unit

/-- A forward handler receives args and may raise. -/
abbrev ForwardTool := Args → Except String TResult

/-- `ToolSpec` from `protocol.py`: name, forward handler, optional
reverse handler. -/
structure ToolSpec where
  name : String
  forward : ForwardTool
  reverse : Option ReverseTool

/-- `ToolSpec.validate`: raises unless the tool has a reverse handler
or its name is in `CHECKPOINT_TOOL_NAMES`. -/
def ToolSpec.validate (s : ToolSpec) : Except String Unit :=
  if s.name ∉ CHECKPOINT_TOOL_NAMES ∧ s.reverse.isNone then
    .error ("must register a reverse handler unless it is a checkpoint tool")
  else
    .ok ()

/-- `ToolInvocationRecord` from `protocol.py`.  The dataclass default
for `timestamp` is `datetime.utcnow()` evaluated once, at class
definition time; the field below stores whatever value ends up in a
record. -/
structure ToolInvocationRecord where
  tool_name : String
  args : Args
  result : TResult
  success : Bool
  error_message : Option String
  timestamp : Nat
deriving DecidableEq

/-- `ReverseInvocationResult` from `protocol.py`. -/
structure ReverseInvocationResult where
  tool_name : String
  reversed_successfully : Bool
  error_message : Option String
deriving DecidableEq

/-- An observed reverse-handler call: which handler was invoked and
with which `(args, result)` pair.  Used to instrument `rollback`. -/
structure RevCall where
  tool_name : String
  args : Args
  result : TResult
deriving DecidableEq

/-- State of a `ToolRollbackRegistry`: the `_tools` dict, the
`_track` list, the single `datetime.utcnow()` value captured when the
record class was defined, and the current wall clock. -/
structure RegistryState where
  tools : String → Option ToolSpec
  track : List ToolInvocationRecord
  classDefTime : Nat
  now : Nat

/-- `ToolRollbackRegistry.register_tool`: validates the spec, then
stores it in the `_tools` dict under its name (replacing any prior
entry). -/
def register_tool (s : RegistryState) (spec : ToolSpec) :
    Except String RegistryState :=
  match spec.validate with
  | .error e => .error e
  | .ok _ =>
    .ok { s with tools := fun n => if n = spec.name then some spec else s.tools n }

/-- `ToolRollbackRegistry.record_invocation`: appends a fresh record
to the track.  No timestamp argument is passed, so the record gets the
dataclass default: the single class-definition-time value, not the
current clock. -/
def record_invocation (s : RegistryState) (tool_name : String) (args : Args)
    (result : TResult) (success : Bool) (error_message : Option String) :
    RegistryState :=
  { s with
    track := s.track ++
      [{ tool_name := tool_name, args := args, result := result,
         success := success, error_message := error_message,
         timestamp := s.classDefTime }],
    now := s.now + 1 }

/-- One iteration of the loop in `ToolRollbackRegistry.rollback`:
`none` when the record is skipped silently (checkpoint tool),
otherwise the appended `ReverseInvocationResult` together with the
reverse call performed, if any. -/
def rollbackRecord (tools : String → Option ToolSpec)
    (r : ToolInvocationRecord) :
    Option (ReverseInvocationResult × Option RevCall) :=
  if r.tool_name ∈ CHECKPOINT_TOOL_NAMES then
    none
  else
    match tools r.tool_name with
    | none =>
        some (⟨r.tool_name, false, some ("No reverse handler registered")⟩, none)
    | some spec =>
        match spec.reverse with
        | none =>
            some (⟨r.tool_name, false, some ("No reverse handler registered")⟩, none)
        | some rev =>
            match rev r.args r.result with
            | .ok _ =>
                some (⟨r.tool_name, true, none⟩, some ⟨r.tool_name, r.args, r.result⟩)
            | .error e =>
                some (⟨r.tool_name, false, some e⟩, some ⟨r.tool_name, r.args, r.result⟩)

/-- The loop of `rollback`, over an already-reversed record list:
collects the result list and the trace of reverse calls performed, in
order. -/
def rollbackLoop (tools : String → Option ToolSpec) :
    List ToolInvocationRecord →
    List ReverseInvocationResult × List RevCall
  | [] => ([], [])
  | r :: rs =>
    let rest := rollbackLoop tools rs
    match rollbackRecord tools r with
    | none => rest
    | some (res, none) => (res :: rest.1, rest.2)
    | some (res, some c) => (res :: rest.1, c :: rest.2)

/-- `ToolRollbackRegistry.rollback`: iterates `reversed(self._track)`
invoking reverse handlers; returns the unchanged registry state (the
method never assigns to `self._track` or `self._tools`) together with
the collected results and the trace of reverse calls. -/
def rollback (s : RegistryState) :
    RegistryState × List ReverseInvocationResult × List RevCall :=
  (s, rollbackLoop s.tools s.track.reverse)

/-- Does the registry hold a reverse handler for this tool name? -/
def hasReverse (tools : String → Option ToolSpec) (n : String) : Bool :=
  match tools n with
  | some spec => spec.reverse.isSome
  | none => false

/-- The records of a track for which `rollback` performs a reverse
call: name not in the checkpoint set and a reverse handler registered.
The success flag is not consulted. -/
def reversedRecords (tools : String → Option ToolSpec)
    (track : List ToolInvocationRecord) : List ToolInvocationRecord :=
  track.filter (fun r =>
    decide (r.tool_name ∉ CHECKPOINT_TOOL_NAMES) && hasReverse tools r.tool_name)

end RollbackPortocal

namespace Engine

/-- Python `str.lower()` on the characters of a string. -/
def lowerStr (s : String) : String :=
  String.mk (s.toList.map Char.toLower)

/-- A metadata value: the engine stores strings and integers in the
checkpoint metadata dict. -/
inductive MetaVal where
  | str (s : String)
  | int (n : Nat)
deriving DecidableEq

/-- Value in an agent session-state dict: booleans
(`rollback_requested`), optional integers (`rollback_checkpoint_id`,
which stores `checkpoint.id` and may be `None`), and strings. -/
inductive SVal where
  | bool (b : Bool)
  | intOpt (n : Option Nat)
  | str (s : String)
deriving DecidableEq

/-- `Checkpoint` from `src/checkpoints/checkpoint.py` (value level:
`session_state` and `conversation_history` as snapshots of their
contents; the reference-level behaviour of `.copy()` is modelled
separately on `PyHeap`). -/
structure Checkpoint where
  id : Option Nat
  internal_session_id : Nat
  checkpoint_name : Option String
  session_state : List (String × String)
  conversation_history : List (String × String)
  is_auto : Bool
  created_at : Option Nat
  metadata : List (String × MetaVal)
deriving DecidableEq

/-- `InternalSession` from `src/sessions/internal_session.py`, the
fields read by `Checkpoint.from_internal_session`. -/
structure InternalSessionM where
  id : Nat
  agno_session_id : String
  session_state : List (String × String)
  conversation_history : List (String × String)
  checkpoint_count : Nat

/-- `Checkpoint.from_internal_session`: builds a checkpoint from a
session, stamping `created_at` with the current time and a metadata
dict holding `agno_session_id` and `checkpoint_count` (and nothing
else). -/
def fromInternalSession (s : InternalSessionM) (checkpoint_name : Option String)
    (is_auto : Bool) (now : Nat) : Checkpoint :=
  { id := none
    internal_session_id := s.id
    checkpoint_name := checkpoint_name
    session_state := s.session_state
    conversation_history := s.conversation_history
    is_auto := is_auto
    created_at := some now
    metadata :=
      [(("agno_session_id"), MetaVal.str s.agno_session_id),
       (("checkpoint_count"), MetaVal.int (s.checkpoint_count + 1))] }

/-- Key of a checkpoint for the newest-first ordering used by the
store queries (`ORDER BY created_at DESC`). -/
def ckptKey (c : Checkpoint) : Nat := c.created_at.getD 0

/-- Insert into a list already sorted newest-first, keeping earlier
elements first among ties (stable). -/
def insertDesc (c : Checkpoint) : List Checkpoint → List Checkpoint
  | [] => [c]
  | d :: ds => if ckptKey d ≥ ckptKey c then d :: insertDesc c ds else c :: d :: ds

/-- Stable sort, newest first, by `created_at`. -/
def sortNewestFirst : List Checkpoint → List Checkpoint
  | [] => []
  | c :: cs => insertDesc c (sortNewestFirst cs)

/-- `CheckpointRepository.get_by_internal_session` (with
`auto_only=False`): all checkpoints of the session, newest first. -/
def getByInternalSession (store : List Checkpoint) (sid : Nat) : List Checkpoint :=
  sortNewestFirst (store.filter (fun c => decide (c.internal_session_id = sid)))

/-- Does a checkpoint match the query under the code of
`rollback_to_checkpoint_tool`: name present and equal, lowercased, to
the lowercased query. -/
def nameMatches (c : Checkpoint) (q : String) : Bool :=
  match c.checkpoint_name with
  | some nm => lowerStr nm = lowerStr q
  | none => false

/-- The name-lookup loop of `rollback_to_checkpoint_tool`: first
checkpoint of the list whose name equals the query case-insensitively
(`break` on first hit). -/
def lookupCheckpointByName (cps : List Checkpoint) (q : String) : Option Checkpoint :=
  cps.find? (fun c => nameMatches c q)

/-- Modelled from the spec: the lookup the specification describes, a
case-insensitive substring match evaluated only over the manual
checkpoints, first match first.  Used to compare against
`lookupCheckpointByName`, the lookup the code performs. -/
def specNameLookup (cps : List Checkpoint) (q : String) : Option Checkpoint :=
  (cps.filter (fun c => !c.is_auto)).find? (fun c =>
    match c.checkpoint_name with
    | some nm => decide ((lowerStr q).toList <:+: (lowerStr nm).toList)
    | none => false)

/-- Argument of `rollback_to_checkpoint_tool`: `int(arg)` succeeds
(an id) or raises (a non-numeric name). -/
inductive CkptArg where
  | byId (n : Nat)
  | byName (s : String)

/-- State touched (or readable) by the checkpoint tools of
`RollbackAgent`: the session-state dict, the conversation history of
the internal session, the checkpoint store, the tool track, and the
current-session pointer of the external session. -/
structure AgentState where
  session_state : List (String × SVal)
  conversation_history : List (String × String)
  checkpoint_store : List Checkpoint
  track : List RollbackPortocal.ToolInvocationRecord
  current_pointer : Option Nat
  internal_session_id : Nat

/-- Python dict read `d.get(k)` over the insertion-ordered entry
list. -/
def dictGet : List (String × SVal) → String → Option SVal
  | [], _ => none
  | (a, b) :: ps, k => if k = a then some b else dictGet ps k

/-- Python dict assignment `d[k] = v`: update in place (at the key's
position) when the key exists, append otherwise. -/
def dictSet : List (String × SVal) → String → SVal → List (String × SVal)
  | [], k, v => [(k, v)]
  | (a, b) :: ps, k, v =>
    if k = a then (k, v) :: ps else (a, b) :: dictSet ps k v

/-- Checkpoint resolution performed by `rollback_to_checkpoint_tool`:
by id through `CheckpointRepository.get_by_id` (the whole table), or
by name over the current internal session, newest first. -/
def findCheckpoint (st : AgentState) (arg : CkptArg) : Option Checkpoint :=
  match arg with
  | .byId n => st.checkpoint_store.find? (fun c => c.id = some n)
  | .byName s =>
      lookupCheckpointByName (getByInternalSession st.checkpoint_store st.internal_session_id) s

/-- `RollbackAgent.rollback_to_checkpoint_tool`: resolves the
checkpoint; when found, sets `rollback_requested := true` and
`rollback_checkpoint_id := checkpoint.id` in the session state and
returns a confirmation; otherwise returns a not-found message and
leaves the state alone. -/
def rollbackToCheckpointTool (st : AgentState) (arg : CkptArg) :
    AgentState × String :=
  match findCheckpoint st arg with
  | none => (st, ("Checkpoint not found. Use list checkpoints to see available checkpoints."))
  | some c =>
      ({ st with
          session_state :=
            dictSet (dictSet st.session_state ("rollback_requested") (SVal.bool true))
              ("rollback_checkpoint_id") (SVal.intOpt c.id) },
       ("Rollback requested."))

/-- The checkpoint-copy loop of `RollbackAgent.from_checkpoint`
(lines 635-648): for each checkpoint of the source session, copy it to
the new session when both timestamps are present and it was created no
later than the target. -/
def copyLineage (original : List Checkpoint) (target : Checkpoint)
    (newSid : Nat) : List Checkpoint :=
  original.filterMap (fun c =>
    match c.created_at, target.created_at with
    | some a, some b =>
        if a ≤ b then
          some { c with id := none, internal_session_id := newSid }
        else none
    | _, _ => none)

end Engine

namespace PyHeap

/-- A Python object: an immutable leaf or a dict whose entries hold
references (heap indices) to other objects. -/
inductive PyVal where
  | prim (s : String)
  | dict (entries : List (String × Nat))
deriving DecidableEq

/-- The heap: index `i` refers to `h.get? i`; allocation appends. -/
abbrev Heap := List PyVal

/-- Python `d.copy()` on a dict reference: allocates a new top-level
dict node carrying the same entry references (a shallow copy).  This
is the copy `RollbackAgent.from_checkpoint` performs when seeding the
new session state and history from the checkpoint snapshot. -/
def dictShallowCopy (h : Heap) (r : Nat) : Heap × Nat :=
  match h.get? r with
  | some (.dict es) => (h ++ [.dict es], h.length)
  | _ => (h, r)

/-- Reference held by a dict entry: `obj[k]` without dereferencing. -/
def dictEntryRef (h : Heap) (r : Nat) (k : String) : Option Nat :=
  match h.get? r with
  | some (.dict es) => es.lookup k
  | _ => none

/-- Assignment into a (String, ref) entry list, Python dict style. -/
def assocSetRef (es : List (String × Nat)) (k : String) (v : Nat) :
    List (String × Nat) :=
  if (es.lookup k).isSome then
    es.map (fun p => if p.1 = k then (k, v) else p)
  else
    es ++ [(k, v)]

/-- Python `obj[k1][k2] = s`: resolve the nested dict through the
outer object and mutate it in place (allocating the new leaf). -/
def setNestedKey (h : Heap) (r : Nat) (k1 k2 : String) (s : String) : Heap :=
  match dictEntryRef h r k1 with
  | none => h
  | some r1 =>
      match h.get? r1 with
      | some (.dict es) =>
          (h ++ [PyVal.prim s]).set r1 (.dict (assocSetRef es k2 h.length))
      | _ => h

/-- Read `obj[k1][k2]`. -/
def readPath2 (h : Heap) (r : Nat) (k1 k2 : String) : Option PyVal :=
  match dictEntryRef h r k1 with
  | none => none
  | some r1 =>
      match dictEntryRef h r1 k2 with
      | none => none
      | some r2 => h.get? r2

end PyHeap

namespace SessionRepo

/-- A row of the `internal_sessions` table, the columns the
current-flag state machine touches. -/
structure SessRow where
  id : Nat
  external_session_id : Nat
  is_current : Bool
  checkpoint_count : Nat
deriving DecidableEq

/-- An `InternalSession` value passed to `create` or `update` by a
caller: `id` is `None` before the row exists. -/
structure SessVal where
  id : Option Nat
  external_session_id : Nat
  is_current : Bool
  checkpoint_count : Nat

/-- The table contents. -/
abbrev DB := List SessRow

/-- The id AUTOINCREMENT assigns to the next inserted row. -/
def nextId (db : DB) : Nat :=
  (db.map (fun r => r.id)).foldr max 0 + 1

/-- `InternalSessionRepository._mark_all_not_current`: clear the
current flag of every session of the external session, optionally
excluding one id.  Python tests `if exclude_id:` so an exclusion of
`0` (falsy) behaves like no exclusion. -/
def markAllNotCurrent (db : DB) (ext : Nat) (excl : Option Nat) : DB :=
  match excl with
  | some e =>
      if e = 0 then
        db.map (fun r => if r.external_session_id = ext then { r with is_current := false } else r)
      else
        db.map (fun r =>
          if r.external_session_id = ext ∧ r.id ≠ e then { r with is_current := false } else r)
  | none =>
      db.map (fun r => if r.external_session_id = ext then { r with is_current := false } else r)

/-- `InternalSessionRepository.create`: demote the other sessions of
the same external session when the new one is current, then insert the
row with a fresh id. -/
def createSession (db : DB) (s : SessVal) : DB × SessRow :=
  let db1 := if s.is_current then markAllNotCurrent db s.external_session_id none else db
  let row : SessRow :=
    ⟨nextId db1, s.external_session_id, s.is_current, s.checkpoint_count⟩
  (db1 ++ [row], row)

/-- `InternalSessionRepository.update`: nothing happens without an
id; otherwise demote the other sessions of the value's external
session when it is current, then write the mutable columns of the row
with that id (the UPDATE does not touch `external_session_id`).
Returns whether a row was written. -/
def updateSession (db : DB) (s : SessVal) : Bool × DB :=
  match s.id with
  | none => (false, db)
  | some i =>
      let db1 := if s.is_current then markAllNotCurrent db s.external_session_id (some i) else db
      (db1.any (fun r => decide (r.id = i)),
       db1.map (fun r =>
         if r.id = i then
           { r with is_current := s.is_current, checkpoint_count := s.checkpoint_count }
         else r))

/-- `InternalSessionRepository.set_current_session`: look the row up
by id; when present demote every session of its external session, then
set its current flag. -/
def setCurrentSession (db : DB) (i : Nat) : Bool × DB :=
  match db.find? (fun r => decide (r.id = i)) with
  | none => (false, db)
  | some row =>
      let db1 := markAllNotCurrent db row.external_session_id none
      (db1.any (fun r => decide (r.id = i)),
       db1.map (fun r => if r.id = i then { r with is_current := true } else r))

/-- A session operation, as in the claim: create an internal session,
update one, or promote one to current. -/
inductive Op where
  | create (s : SessVal)
  | update (s : SessVal)
  | setCurrent (i : Nat)

/-- Apply one operation to the table. -/
def applyOp (db : DB) : Op → DB
  | .create s => (createSession db s).1
  | .update s => (updateSession db s).2
  | .setCurrent i => (setCurrentSession db i).2

/-- Apply a sequence of operations. -/
def applyOps (db : DB) (ops : List Op) : DB :=
  ops.foldl applyOp db

/-- The ids of the current sessions of an external session. -/
def currentsOfExt (db : DB) (ext : Nat) : List Nat :=
  (db.filter (fun r => r.is_current && decide (r.external_session_id = ext))).map
    (fun r => r.id)

/-- At most one internal session of each external session is
current. -/
def AtMostOneCurrent (db : DB) : Prop :=
  ∀ ext : Nat, (currentsOfExt db ext).length ≤ 1

/-- Row ids are distinct (primary key). -/
def NodupIds (db : DB) : Prop :=
  (db.map (fun r => r.id)).Nodup

/-- Well-formed call: an `update` passes a session read from the
store, so its `external_session_id` agrees with the row it names. -/
def wfOp (db : DB) : Op → Prop
  | .update s =>
      ∀ i, s.id = some i → ∀ r ∈ db, r.id = i → r.external_session_id = s.external_session_id
  | _ => True

/-- Well-formedness of a call sequence, each call against the table
it runs on. -/
def WFSeq : DB → List Op → Prop
  | _, [] => True
  | db, op :: ops => wfOp db op ∧ WFSeq (applyOp db op) ops

end SessionRepo

namespace CkptRepo

/-- A row of the `checkpoints` table, the columns pruning touches. -/
structure CkptRow where
  id : Nat
  internal_session_id : Nat
  checkpoint_name : Option String
  is_auto : Bool
  created_at : Nat
deriving DecidableEq

/-- Insert into a newest-first list, newest first, earlier rows first
among ties. -/
def insertDescRow (c : CkptRow) : List CkptRow → List CkptRow
  | [] => [c]
  | d :: ds => if d.created_at ≥ c.created_at then d :: insertDescRow c ds else c :: d :: ds

/-- Stable newest-first sort by `created_at` (`ORDER BY created_at
DESC`). -/
def sortNewestFirstRow : List CkptRow → List CkptRow
  | [] => []
  | c :: cs => insertDescRow c (sortNewestFirstRow cs)

/-- The automatic checkpoints of a session, in table order. -/
def autosOf (store : List CkptRow) (sid : Nat) : List CkptRow :=
  store.filter (fun r => decide (r.internal_session_id = sid) && r.is_auto)

/-- `CheckpointRepository.delete_auto_checkpoints`: select the ids of
the `keep_latest` newest automatic checkpoints of the session, then
delete the automatic checkpoints of the session not among them.  (The
Python code branches on the keep list being empty only because SQL
cannot take an empty `IN` list; both branches delete by the same
predicate.)  Returns the surviving table and the deleted count. -/
def deleteAutoCheckpoints (store : List CkptRow) (sid : Nat) (keep_latest : Nat) :
    List CkptRow × Nat :=
  let keepIds := ((sortNewestFirstRow (autosOf store sid)).take keep_latest).map
    (fun r => r.id)
  let kept := store.filter (fun r =>
    !(decide (r.internal_session_id = sid) && r.is_auto && !(keepIds.contains r.id)))
  (kept, store.length - kept.length)

end CkptRepo

namespace Engine

/-- A manual checkpoint named Alpha in session 1. -/
def exCkptAlpha : Checkpoint :=
  ⟨some 1, 1, some ("Alpha"), [], [], false, some 10, []⟩

/-- An automatic checkpoint named AutoSave in session 1. -/
def exCkptAuto : Checkpoint :=
  ⟨some 2, 1, some ("AutoSave"), [], [], true, some 20, []⟩

/-- A store holding the two checkpoints above. -/
def exStore : List Checkpoint := [exCkptAlpha, exCkptAuto]

/-- A concrete agent state for session 1 over `exStore`. -/
def exAgent : AgentState :=
  { session_state := [(("foo"), SVal.str ("bar"))]
    conversation_history := [(("user"), ("hi"))]
    checkpoint_store := exStore
    track := []
    current_pointer := some 1
    internal_session_id := 1 }

/-- A session to snapshot, to evaluate `fromInternalSession` at. -/
def exSession : InternalSessionM :=
  ⟨1, ("agno_abc"), [(("k"), ("v"))], [(("user"), ("hi"))], 0⟩

end Engine

namespace PyHeap

/-- A checkpoint snapshot heap: ref 0 is the stored
`session_state` dict, whose entry `a` points to the nested dict at
ref 1, whose entry `b` points to the leaf at ref 2. -/
def exHeap : Heap :=
  [PyVal.dict [(("a"), 1)], PyVal.dict [(("b"), 2)], PyVal.prim ("old")]

end PyHeap

namespace RollbackPortocal

/-- A registered tool with a reverse handler, for concrete runs. -/
def exSpecT : ToolSpec :=
  ⟨("t"), fun _ => .ok none, some (fun _ _ => .ok ())⟩

/-- A tools dict holding only `exSpecT`. -/
def exTools : String → Option ToolSpec :=
  fun n => if n = ("t") then some exSpecT else none

/-- A record of a failed forward invocation (success flag false). -/
def exRecordFailed : ToolInvocationRecord :=
  ⟨("t"), [], none, false, some ("boom"), 0⟩

/-- A registry whose track holds exactly one failed record. -/
def exState1 : RegistryState :=
  ⟨exTools, [exRecordFailed], 0, 5⟩

/-- An empty registry. -/
def exState0 : RegistryState :=
  ⟨fun _ => none, [], 0, 0⟩

/-- A second spec under the same name, to exercise re-registration. -/
def exSpecT2 : ToolSpec :=
  ⟨("t"), fun _ => .ok (some ("v2")), some (fun _ _ => .error ("always fails"))⟩

/-- The registry state after registering `exSpecT` into `exState0`. -/
def exState0T : RegistryState :=
  match register_tool exState0 exSpecT with
  | .ok t => t
  | .error _ => exState0

theorem rollbackLoop_calls_eq (tools : String → Option ToolSpec) :
    ∀ l : List ToolInvocationRecord,
      (rollbackLoop tools l).2
        = (reversedRecords tools l).map (fun r => RevCall.mk r.tool_name r.args r.result) := by
  intro l
  induction l with
  | nil => rfl
  | cons r rs ih =>
    by_cases hck : r.tool_name ∈ CHECKPOINT_TOOL_NAMES
    · simp only [rollbackLoop, rollbackRecord, if_pos hck, reversedRecords,
        List.filter_cons, decide_not]
      simp [hck, ih, reversedRecords]
    · rcases htool : tools r.tool_name with _ | spec
      · simp only [rollbackLoop, rollbackRecord, if_neg hck, htool, reversedRecords,
          List.filter_cons]
        simp [hck, ih, reversedRecords, hasReverse, htool]
      · rcases hrev : spec.reverse with _ | rev
        · simp only [rollbackLoop, rollbackRecord, if_neg hck, htool, hrev, reversedRecords,
            List.filter_cons]
          simp [hck, ih, reversedRecords, hasReverse, htool, hrev]
        · rcases hrun : rev r.args r.result with e | u
          · simp only [rollbackLoop, rollbackRecord, if_neg hck, htool, hrev, hrun]
            simp [hck, ih, reversedRecords, hasReverse, htool, hrev]
          · simp only [rollbackLoop, rollbackRecord, if_neg hck, htool, hrev, hrun]
            simp [hck, ih, reversedRecords, hasReverse, htool, hrev]

/-- C1 counterexample: the claim says the reverse handler is invoked
only for records whose success flag is true.  On a track holding a
single record with `success = false` for a tool with a registered
reverse, `rollback` nevertheless performs the reverse call with the
recorded `(args, result)`. -/
theorem c1_counterexample :
    (rollback exState1).2.2 = [⟨("t"), [], none⟩]
      ∧ exState1.track = [exRecordFailed]
      ∧ exRecordFailed.success = false := by
  exact ⟨rfl, rfl, rfl⟩

/-- C1 (amended): `rollback` visits the whole track (there is no
starting-index parameter) in strictly reverse order and performs the
reverse call with `(args, result)` for exactly the records whose tool
name is outside the reserved checkpoint-tool set and whose tool has a
registered reverse handler, regardless of the success flag; records
with a checkpoint-tool name are never reversed. -/
theorem c1_rollback_reverse_calls (s : RegistryState) :
    (rollback s).2.2
        = (reversedRecords s.tools s.track.reverse).map
            (fun r => RevCall.mk r.tool_name r.args r.result)
      ∧ ∀ c ∈ (rollback s).2.2, c.tool_name ∉ CHECKPOINT_TOOL_NAMES := by
  have h := rollbackLoop_calls_eq s.tools s.track.reverse
  refine ⟨h, ?_⟩
  intro c hc
  rw [show (rollback s).2.2 = (rollbackLoop s.tools s.track.reverse).2 from rfl, h] at hc
  rcases List.mem_map.mp hc with ⟨r, hr, hrc⟩
  have hr2 := (List.mem_filter.mp hr).2
  have hname : r.tool_name ∉ CHECKPOINT_TOOL_NAMES := by
    simp only [Bool.and_eq_true, decide_eq_true_eq] at hr2
    exact hr2.1
  rw [← hrc]
  exact hname

/-- C1 witness: the reverse-call characterization evaluated on the
concrete one-record registry. -/
theorem c1_rollback_reverse_calls_witness :
    (rollback exState1).2.2
      = (reversedRecords exState1.tools exState1.track.reverse).map
          (fun r => RevCall.mk r.tool_name r.args r.result) :=
  (c1_rollback_reverse_calls exState1).1

/-- C2 counterexample: the claim says that after a rollback from
index `i` the track has length exactly `i`.  Rolling back the
one-record registry (the only possible start is index 0, since the
operation takes no index) leaves the track at length 1, not 0. -/
theorem c2_counterexample :
    ¬ ((rollback exState1).1.track.length = 0)
      ∧ (rollback exState1).1.track.length = 1 := by
  constructor
  · decide
  · rfl

/-- C2 (amended): `rollback` never truncates the track; the registry
state, track included, is returned unchanged, and the track is only
emptied by the separate `clear_track` operation. -/
theorem c2_rollback_preserves_track (s : RegistryState) :
    (rollback s).1.track = s.track ∧ (rollback s).1 = s := ⟨rfl, rfl⟩

/-- C6: registration fails if and only if the spec has no reverse
handler and its name is not in the reserved checkpoint-tool set; on
success the spec is stored under its name with all other names
untouched, and registering a second spec under the same name replaces
the first. -/
theorem c6_register_tool_spec (s : RegistryState) (spec spec2 : ToolSpec) :
    ((∃ e, register_tool s spec = Except.error e)
        ↔ (spec.reverse = none ∧ spec.name ∉ CHECKPOINT_TOOL_NAMES))
      ∧ (∀ t, register_tool s spec = Except.ok t →
          (t.tools spec.name = some spec ∧ ∀ n, n ≠ spec.name → t.tools n = s.tools n)
          ∧ (spec2.name = spec.name → ∀ t2, register_tool t spec2 = Except.ok t2 →
              t2.tools spec.name = some spec2)) := by
  constructor
  · constructor
    · rintro ⟨e, he⟩
      by_cases hc : spec.name ∉ CHECKPOINT_TOOL_NAMES ∧ spec.reverse.isNone
      · exact ⟨Option.isNone_iff_eq_none.mp hc.2, hc.1⟩
      · exfalso
        simp only [register_tool, ToolSpec.validate, if_neg hc] at he
        exact Except.noConfusion he
    · rintro ⟨hrev, hname⟩
      refine ⟨("must register a reverse handler unless it is a checkpoint tool"), ?_⟩
      have hc : spec.name ∉ CHECKPOINT_TOOL_NAMES ∧ spec.reverse.isNone :=
        ⟨hname, by simp [hrev]⟩
      simp only [register_tool, ToolSpec.validate, if_pos hc]
  · intro t ht
    have hok : register_tool s spec = Except.ok t := ht
    by_cases hc : spec.name ∉ CHECKPOINT_TOOL_NAMES ∧ spec.reverse.isNone
    · exfalso
      simp only [register_tool, ToolSpec.validate, if_pos hc] at hok
      exact Except.noConfusion hok
    · simp only [register_tool, ToolSpec.validate, if_neg hc, Except.ok.injEq] at hok
      subst hok
      refine ⟨⟨by simp, ?_⟩, ?_⟩
      · intro n hn
        simp [hn]
      · intro hname t2 ht2
        by_cases hc2 : spec2.name ∉ CHECKPOINT_TOOL_NAMES ∧ spec2.reverse.isNone
        · exfalso
          simp only [register_tool, ToolSpec.validate, if_pos hc2] at ht2
          exact Except.noConfusion ht2
        · simp only [register_tool, ToolSpec.validate, if_neg hc2, Except.ok.injEq] at ht2
          subst ht2
          simp [hname]

/-- C6 witness: registering `exSpecT` into the empty registry
succeeds and stores it under its name, and registering `exSpecT2`
(same name) on top replaces it. -/
theorem c6_register_tool_witness :
    exState0T.tools ("t") = some exSpecT
      ∧ ∀ t2, register_tool exState0T exSpecT2 = Except.ok t2 →
          t2.tools ("t") = some exSpecT2 := by
  have hok : register_tool exState0 exSpecT = Except.ok exState0T := rfl
  have h := (c6_register_tool_spec exState0 exSpecT exSpecT2).2 exState0T hok
  exact ⟨h.1.1, fun t2 ht2 => h.2 rfl t2 ht2⟩

/-- C10: a record appended by `record_invocation` always carries the
single class-definition-time default timestamp, so any two records
appended this way have equal timestamps, even though the wall clock
(`now`) advances between the calls: record timestamps do not reflect
the time each record was appended. -/
theorem c10_record_timestamps_equal (s : RegistryState)
    (n1 n2 : String) (a1 a2 : Args) (r1 r2 : TResult) (b1 b2 : Bool)
    (e1 e2 : Option String) :
    ((record_invocation s n1 a1 r1 b1 e1).track.getLast?.map
        (fun rec => rec.timestamp) = some s.classDefTime)
      ∧ ((record_invocation (record_invocation s n1 a1 r1 b1 e1) n2 a2 r2 b2 e2).track.getLast?.map
          (fun rec => rec.timestamp) = some s.classDefTime)
      ∧ (record_invocation (record_invocation s n1 a1 r1 b1 e1) n2 a2 r2 b2 e2).now
          = s.now + 2 := by
  refine ⟨?_, ?_, rfl⟩
  · simp [record_invocation]
  · simp [record_invocation]

end RollbackPortocal

namespace Engine

theorem find_first_split {α : Type} (p : α → Bool) :
    ∀ (l : List α) (a : α), l.find? p = some a →
      p a = true ∧ ∃ pre post, l = pre ++ a :: post ∧ ∀ x ∈ pre, p x = false := by
  intro l
  induction l with
  | nil => intro a h; simp [List.find?] at h
  | cons x xs ih =>
    intro a h
    rcases hpx : p x with _ | _
    · rw [List.find?_cons_of_neg _ (by simp [hpx])] at h
      rcases ih a h with ⟨hpa, pre, post, heq, hpre⟩
      refine ⟨hpa, x :: pre, post, by rw [heq]; rfl, ?_⟩
      intro y hy
      rcases List.mem_cons.mp hy with hy | hy
      · rw [hy]; exact hpx
      · exact hpre y hy
    · rw [List.find?_cons_of_pos _ hpx] at h
      cases h
      exact ⟨hpx, [], xs, rfl, by intro y hy; cases hy⟩

theorem mem_insertDesc (c x : Checkpoint) :
    ∀ l : List Checkpoint, x ∈ insertDesc c l ↔ x = c ∨ x ∈ l := by
  intro l
  induction l with
  | nil => simp [insertDesc]
  | cons d ds ih =>
    by_cases h : ckptKey d ≥ ckptKey c
    · simp only [insertDesc, if_pos h, List.mem_cons, ih]
      tauto
    · simp only [insertDesc, if_neg h, List.mem_cons]

theorem mem_sortNewestFirst (x : Checkpoint) :
    ∀ l : List Checkpoint, x ∈ sortNewestFirst l ↔ x ∈ l := by
  intro l
  induction l with
  | nil => simp [sortNewestFirst]
  | cons c cs ih =>
    simp only [sortNewestFirst, mem_insertDesc, ih, List.mem_cons]

theorem pairwise_insertDesc (c : Checkpoint) :
    ∀ l : List Checkpoint,
      List.Pairwise (fun a b => ckptKey b ≤ ckptKey a) l →
      List.Pairwise (fun a b => ckptKey b ≤ ckptKey a) (insertDesc c l) := by
  intro l
  induction l with
  | nil => intro _; simp [insertDesc]
  | cons d ds ih =>
    intro hp
    rcases List.pairwise_cons.mp hp with ⟨hd, hds⟩
    by_cases h : ckptKey d ≥ ckptKey c
    · rw [insertDesc, if_pos h]
      refine List.pairwise_cons.mpr ⟨?_, ih hds⟩
      intro b hb
      rcases (mem_insertDesc c b ds).mp hb with hb | hb
      · rw [hb]; exact h
      · exact hd b hb
    · rw [insertDesc, if_neg h]
      refine List.pairwise_cons.mpr ⟨?_, hp⟩
      intro b hb
      rcases List.mem_cons.mp hb with hb | hb
      · rw [hb]
        exact le_of_lt (lt_of_not_ge h)
      · exact le_trans (hd b hb) (le_of_lt (lt_of_not_ge h))

theorem sorted_sortNewestFirst :
    ∀ l : List Checkpoint,
      List.Pairwise (fun a b => ckptKey b ≤ ckptKey a) (sortNewestFirst l) := by
  intro l
  induction l with
  | nil => simp [sortNewestFirst]
  | cons c cs ih => exact pairwise_insertDesc c (sortNewestFirst cs) ih

/-- C3: every checkpoint built by `Checkpoint.from_internal_session`
(the constructor used both by the manual `create_checkpoint_tool` and
by the automatic post-tool checkpoint) carries a metadata dict whose
keys are exactly `agno_session_id` and `checkpoint_count`; in
particular the key `tool_track_position` required by the claim is
never present, although `AgentService.rollback_to_checkpoint` reads
exactly that key to drive tool rollback. -/
theorem c3_metadata_has_no_tool_track_position (s : InternalSessionM)
    (nm : Option String) (is_auto : Bool) (now : Nat) :
    (fromInternalSession s nm is_auto now).metadata.lookup ("tool_track_position") = none
      ∧ (fromInternalSession s nm is_auto now).metadata.map (fun p => p.1)
          = [("agno_session_id"), ("checkpoint_count")] := by
  constructor
  · simp [fromInternalSession, List.lookup]
  · rfl

/-- C7 counterexample: the claim says the lookup is a
case-insensitive substring match over the manual checkpoints.  On a
store holding the manual checkpoint Alpha and the automatic checkpoint
AutoSave, the code finds nothing for the query Alph (a substring of a
manual name), and finds the automatic checkpoint for the query
autosave - so the match is neither a substring match nor restricted to
manual checkpoints. -/
theorem c7_counterexample :
    lookupCheckpointByName (getByInternalSession exStore 1) ("Alph") = none
      ∧ specNameLookup (getByInternalSession exStore 1) ("Alph") = some exCkptAlpha
      ∧ lookupCheckpointByName (getByInternalSession exStore 1) ("autosave") = some exCkptAuto
      ∧ exCkptAuto.is_auto = true
      ∧ specNameLookup (getByInternalSession exStore 1) ("autosave") = none := by
  refine ⟨by decide, by decide, by decide, rfl, by decide⟩

/-- C7 (amended): the lookup of `rollback_to_checkpoint_tool` by name
runs over all checkpoints of the current internal session (manual and
automatic alike) in newest-first order, matching by case-insensitive
equality of the whole name; when several match, the first match in
that newest-first ordering is selected, and a result is returned only
when some checkpoint of the session matches. -/
theorem c7_name_lookup (store : List Checkpoint) (sid : Nat) (q : String) :
    (∀ cp, lookupCheckpointByName (getByInternalSession store sid) q = some cp →
        nameMatches cp q = true ∧ cp.internal_session_id = sid ∧
        ∃ pre post, getByInternalSession store sid = pre ++ cp :: post ∧
          ∀ x ∈ pre, nameMatches x q = false)
      ∧ (lookupCheckpointByName (getByInternalSession store sid) q = none →
          ∀ cp ∈ getByInternalSession store sid, nameMatches cp q = false)
      ∧ List.Pairwise (fun a b => ckptKey b ≤ ckptKey a) (getByInternalSession store sid)
      ∧ (∀ cp, cp ∈ getByInternalSession store sid ↔
          cp.internal_session_id = sid ∧ cp ∈ store) := by
  refine ⟨?_, ?_, ?_, ?_⟩
  · intro cp hcp
    rcases find_first_split (fun c => nameMatches c q) _ cp hcp with ⟨hm, pre, post, heq, hpre⟩
    have hmem : cp ∈ getByInternalSession store sid :=
      List.mem_of_find?_eq_some hcp
    have hsid : cp.internal_session_id = sid := by
      have := (mem_sortNewestFirst cp _).mp hmem
      have := (List.mem_filter.mp this).2
      exact of_decide_eq_true this
    exact ⟨hm, hsid, pre, post, heq, hpre⟩
  · intro hnone cp hcp
    have := List.find?_eq_none.mp hnone cp hcp
    exact Bool.not_eq_true _ ▸ (by simpa using this)
  · exact sorted_sortNewestFirst _
  · intro cp
    have hms := mem_sortNewestFirst cp
      (store.filter (fun c => decide (c.internal_session_id = sid)))
    constructor
    · intro h
      rcases List.mem_filter.mp (hms.mp h) with ⟨h1, h2⟩
      exact ⟨of_decide_eq_true h2, h1⟩
    · intro h
      exact hms.mpr (List.mem_filter.mpr ⟨h.2, by simpa using h.1⟩)

/-- C7 witness: on the concrete store, the query alpha resolves to
the manual checkpoint Alpha, and the amended theorem applies to give
its matching facts. -/
theorem c7_name_lookup_witness :
    nameMatches exCkptAlpha ("alpha") = true ∧ exCkptAlpha.internal_session_id = 1 := by
  have h := (c7_name_lookup exStore 1 ("alpha")).1 exCkptAlpha (by decide)
  exact ⟨h.1, h.2.1⟩

end Engine



namespace Engine

theorem dictGet_dictSet (k k2 : String) (v : SVal) :
    ∀ d : List (String × SVal),
      dictGet (dictSet d k v) k2 = if k2 = k then some v else dictGet d k2 := by
  intro d
  induction d with
  | nil =>
    by_cases hk2 : k2 = k <;> simp [dictSet, dictGet, hk2]
  | cons p ps ih =>
    obtain ⟨a, b⟩ := p
    by_cases hka : k = a
    · subst hka
      by_cases hk2 : k2 = k <;> simp [dictSet, dictGet, hk2]
    · by_cases hk2a : k2 = a
      · have hk2k : k2 ≠ k := by
          rw [hk2a]
          exact fun hh => hka hh.symm
        have hak : a ≠ k := fun hh => hka hh.symm
        simp [dictSet, dictGet, hka, hk2a, hk2k, hak]
      · simp [dictSet, dictGet, hka, hk2a, ih]

/-- C8: a successful `rollback_to_checkpoint_tool` call mutates only
the session state, setting `rollback_requested := true` and
`rollback_checkpoint_id := checkpoint.id`: the conversation history,
the checkpoint store, the tool track, the current-session pointer and
every other session-state key are unchanged. -/
theorem c8_rollback_tool_frame (st : AgentState) (arg : CkptArg) (c : Checkpoint)
    (hfound : findCheckpoint st arg = some c) :
    (rollbackToCheckpointTool st arg).1.conversation_history = st.conversation_history
      ∧ (rollbackToCheckpointTool st arg).1.checkpoint_store = st.checkpoint_store
      ∧ (rollbackToCheckpointTool st arg).1.track = st.track
      ∧ (rollbackToCheckpointTool st arg).1.current_pointer = st.current_pointer
      ∧ (rollbackToCheckpointTool st arg).1.internal_session_id = st.internal_session_id
      ∧ dictGet (rollbackToCheckpointTool st arg).1.session_state ("rollback_requested")
          = some (SVal.bool true)
      ∧ dictGet (rollbackToCheckpointTool st arg).1.session_state ("rollback_checkpoint_id")
          = some (SVal.intOpt c.id)
      ∧ ∀ k2, k2 ≠ ("rollback_requested") → k2 ≠ ("rollback_checkpoint_id") →
          dictGet (rollbackToCheckpointTool st arg).1.session_state k2
            = dictGet st.session_state k2 := by
  have hred : (rollbackToCheckpointTool st arg).1
      = { st with
          session_state :=
            dictSet (dictSet st.session_state ("rollback_requested") (SVal.bool true))
              ("rollback_checkpoint_id") (SVal.intOpt c.id) } := by
    rw [rollbackToCheckpointTool, hfound]
  rw [hred]
  refine ⟨rfl, rfl, rfl, rfl, rfl, ?_, ?_, ?_⟩
  · rw [dictGet_dictSet, if_neg (by decide), dictGet_dictSet, if_pos rfl]
  · rw [dictGet_dictSet, if_pos rfl]
  · intro k2 h1 h2
    rw [dictGet_dictSet, if_neg h2, dictGet_dictSet, if_neg h1]

/-- C8 witness: requesting rollback to checkpoint id 1 on the
concrete agent leaves the track unchanged and records the checkpoint
id in the session state. -/
theorem c8_rollback_tool_frame_witness :
    (rollbackToCheckpointTool exAgent (CkptArg.byId 1)).1.track = exAgent.track
      ∧ dictGet (rollbackToCheckpointTool exAgent (CkptArg.byId 1)).1.session_state
          ("rollback_checkpoint_id") = some (SVal.intOpt exCkptAlpha.id) := by
  have h := c8_rollback_tool_frame exAgent (CkptArg.byId 1) exCkptAlpha (by decide)
  exact ⟨h.2.2.1, h.2.2.2.2.2.2.1⟩

/-- C4 counterexample: the claim says the new session state is a deep
copy of the checkpoint snapshot, so that mutating the new session's
nested values cannot alter the stored checkpoint.  On the concrete
snapshot heap, the restore copy is shallow: after writing `new` into
the nested dict through the copied state, reading the original
checkpoint reference yields `new` instead of the stored `old`. -/
theorem c4_counterexample :
    PyHeap.readPath2 PyHeap.exHeap 0 ("a") ("b") = some (PyHeap.PyVal.prim ("old"))
      ∧ PyHeap.readPath2 (PyHeap.dictShallowCopy PyHeap.exHeap 0).1
          (PyHeap.dictShallowCopy PyHeap.exHeap 0).2 ("a") ("b")
          = some (PyHeap.PyVal.prim ("old"))
      ∧ PyHeap.readPath2
          (PyHeap.setNestedKey (PyHeap.dictShallowCopy PyHeap.exHeap 0).1
            (PyHeap.dictShallowCopy PyHeap.exHeap 0).2 ("a") ("b") ("new"))
          0 ("a") ("b")
          = some (PyHeap.PyVal.prim ("new")) := by
  refine ⟨rfl, rfl, rfl⟩

/-- C4 (amended): forking from checkpoint C copies exactly those
checkpoints of the source session whose `created_at` is present and
at most C's (retargeted to the new session), and the new session's
initial state is a shallow top-level copy of C's snapshot: a fresh
dict object holding the same top-level entry references, the rest of
the heap untouched — so the snapshot is equal at copy time, but
nested objects are shared rather than deep-copied. -/
theorem c4_from_checkpoint_lineage (original : List Checkpoint)
    (target : Checkpoint) (newSid : Nat) (tc : Nat)
    (ht : target.created_at = some tc)
    (hall : ∀ cp ∈ original, (cp.created_at).isSome = true) :
    copyLineage original target newSid
        = (original.filter (fun cp => decide (ckptKey cp ≤ tc))).map
            (fun cp => { cp with id := none, internal_session_id := newSid })
      ∧ ∀ (h : PyHeap.Heap) (r : Nat) (es : List (String × Nat)),
          h.get? r = some (PyHeap.PyVal.dict es) →
            ((PyHeap.dictShallowCopy h r).1).get? ((PyHeap.dictShallowCopy h r).2)
                = some (PyHeap.PyVal.dict es)
            ∧ ((PyHeap.dictShallowCopy h r).2) = h.length
            ∧ ∀ i, i < h.length →
                ((PyHeap.dictShallowCopy h r).1).get? i = h.get? i := by
  constructor
  · induction original with
    | nil => rfl
    | cons cp cps ih =>
      have hcp : (cp.created_at).isSome = true := hall cp (List.mem_cons_self cp cps)
      have ihh := ih (fun x hx => hall x (List.mem_cons_of_mem cp hx))
      rcases hccp : cp.created_at with _ | a
      · rw [hccp] at hcp; cases hcp
      · by_cases hle : a ≤ tc
        · have h1 : copyLineage (cp :: cps) target newSid
              = { cp with id := none, internal_session_id := newSid }
                  :: copyLineage cps target newSid := by
            simp [copyLineage, List.filterMap_cons, hccp, ht, hle]
          have h2 : (cp :: cps).filter (fun x => decide (ckptKey x ≤ tc))
              = cp :: cps.filter (fun x => decide (ckptKey x ≤ tc)) := by
            simp [List.filter_cons, ckptKey, hccp, hle]
          rw [h1, h2, List.map_cons, ihh]
        · have h1 : copyLineage (cp :: cps) target newSid
              = copyLineage cps target newSid := by
            simp [copyLineage, List.filterMap_cons, hccp, ht, hle]
          have h2 : (cp :: cps).filter (fun x => decide (ckptKey x ≤ tc))
              = cps.filter (fun x => decide (ckptKey x ≤ tc)) := by
            simp [List.filter_cons, ckptKey, hccp, hle]
          rw [h1, h2, ihh]
  · intro h r es hread
    have hcopy : PyHeap.dictShallowCopy h r = (h ++ [PyHeap.PyVal.dict es], h.length) := by
      rw [PyHeap.dictShallowCopy, hread]
    rw [hcopy]
    refine ⟨List.get?_concat_length h (PyHeap.PyVal.dict es), rfl, ?_⟩
    intro i hi
    exact List.get?_append hi

/-- C4 witness: forking from checkpoint Alpha (timestamp 10) over the
concrete store copies exactly the checkpoints created at or before 10,
retargeted to session 7. -/
theorem c4_from_checkpoint_lineage_witness :
    copyLineage exStore exCkptAlpha 7
      = (exStore.filter (fun cp => decide (ckptKey cp ≤ 10))).map
          (fun cp => { cp with id := none, internal_session_id := 7 }) :=
  (c4_from_checkpoint_lineage exStore exCkptAlpha 7 10 rfl (by decide)).1

end Engine

namespace SessionRepo

theorem countP_append_own (p : SessRow → Bool) :
    ∀ l1 l2 : DB, (l1 ++ l2).countP p = l1.countP p + l2.countP p := by
  intro l1 l2
  induction l1 with
  | nil => simp
  | cons r rs ih =>
    simp only [List.cons_append, List.countP_cons, ih]
    omega

theorem countP_map_pointwise (p : SessRow → Bool) (f : SessRow → SessRow) :
    ∀ db : DB, (∀ r ∈ db, p (f r) = p r) → (db.map f).countP p = db.countP p := by
  intro db
  induction db with
  | nil => intro _; rfl
  | cons r rs ih =>
    intro h
    have hr := h r (List.mem_cons_self r rs)
    simp only [List.map_cons, List.countP_cons, hr,
      ih (fun x hx => h x (List.mem_cons_of_mem r hx))]

theorem countP_map_imp (p q : SessRow → Bool) (f : SessRow → SessRow) :
    ∀ db : DB, (∀ r ∈ db, p (f r) = true → q r = true) →
      (db.map f).countP p ≤ db.countP q := by
  intro db
  induction db with
  | nil => intro _; exact le_refl 0
  | cons r rs ih =>
    intro h
    have ihh := ih (fun x hx => h x (List.mem_cons_of_mem r hx))
    have hr := h r (List.mem_cons_self r rs)
    rcases hpf : p (f r) with _ | _
    · have hneg : ¬ p (f r) = true := by
        rw [hpf]
        exact Bool.false_ne_true
      rw [List.map_cons, List.countP_cons_of_neg _ _ hneg]
      have hstep : rs.countP q ≤ (r :: rs).countP q := by
        rw [List.countP_cons]
        exact Nat.le_add_right _ _
      exact le_trans ihh hstep
    · rw [List.map_cons, List.countP_cons_of_pos _ _ hpf,
        List.countP_cons_of_pos _ _ (hr hpf)]
      exact Nat.succ_le_succ ihh

theorem countP_eq_zero_of (p : SessRow → Bool) :
    ∀ db : DB, (∀ r ∈ db, p r = false) → db.countP p = 0 := by
  intro db
  induction db with
  | nil => intro _; rfl
  | cons r rs ih =>
    intro h
    have hneg : ¬ p r = true := by
      rw [h r (List.mem_cons_self r rs)]
      exact Bool.false_ne_true
    rw [List.countP_cons_of_neg _ _ hneg]
    exact ih (fun x hx => h x (List.mem_cons_of_mem r hx))

theorem countP_id_le_one (i : Nat) :
    ∀ db : DB, NodupIds db → db.countP (fun r => decide (r.id = i)) ≤ 1 := by
  intro db
  induction db with
  | nil => intro _; exact Nat.zero_le 1
  | cons r rs ih =>
    intro hnd
    rw [NodupIds, List.map_cons, List.nodup_cons] at hnd
    rcases hnd with ⟨hnotin, hnd2⟩
    by_cases hri : r.id = i
    · have hz : rs.countP (fun r => decide (r.id = i)) = 0 := by
        refine countP_eq_zero_of _ rs ?_
        intro x hx
        by_cases hxi : x.id = i
        · exfalso
          apply hnotin
          rw [hri, ← hxi]
          exact List.mem_map_of_mem (fun r => r.id) hx
        · simp [hxi]
      simp [List.countP_cons, hz, hri]
    · simp only [List.countP_cons, hri, decide_False, if_false, Nat.add_zero]
      exact ih hnd2

theorem nodup_id_inj :
    ∀ db : DB, NodupIds db → ∀ r1 ∈ db, ∀ r2 ∈ db, r1.id = r2.id → r1 = r2 := by
  intro db
  induction db with
  | nil => intro _ r1 h1; cases h1
  | cons r rs ih =>
    intro hnd r1 h1 r2 h2 hid
    rw [NodupIds, List.map_cons, List.nodup_cons] at hnd
    rcases hnd with ⟨hnotin, hnd2⟩
    rcases List.mem_cons.mp h1 with h1 | h1 <;> rcases List.mem_cons.mp h2 with h2 | h2
    · rw [h1, h2]
    · exfalso
      apply hnotin
      rw [← h1, hid]
      exact List.mem_map_of_mem (fun r => r.id) h2
    · exfalso
      apply hnotin
      rw [← h2, ← hid]
      exact List.mem_map_of_mem (fun r => r.id) h1
    · exact ih hnd2 r1 h1 r2 h2 hid

theorem ids_map_aux (f : SessRow → SessRow) (hf : ∀ r, (f r).id = r.id) :
    ∀ db : DB, (db.map f).map (fun r => r.id) = db.map (fun r => r.id) := by
  intro db
  induction db with
  | nil => rfl
  | cons r rs ih => simp only [List.map_cons, hf, ih]

theorem mark_ids (db : DB) (ext : Nat) (excl : Option Nat) :
    (markAllNotCurrent db ext excl).map (fun r => r.id) = db.map (fun r => r.id) := by
  rcases excl with _ | e
  · refine ids_map_aux _ ?_ db
    intro r
    by_cases h : r.external_session_id = ext <;> simp [h]
  · by_cases he : e = 0
    · simp only [markAllNotCurrent, if_pos he]
      refine ids_map_aux _ ?_ db
      intro r
      by_cases h : r.external_session_id = ext <;> simp [h]
    · simp only [markAllNotCurrent, if_neg he]
      refine ids_map_aux _ ?_ db
      intro r
      by_cases h : r.external_session_id = ext ∧ r.id ≠ e <;> simp [h]

theorem mark_mem_src (db : DB) (ext : Nat) (excl : Option Nat) :
    ∀ r1 ∈ markAllNotCurrent db ext excl, ∃ r ∈ db,
      r1.id = r.id ∧ r1.external_session_id = r.external_session_id := by
  have key : ∀ (f : SessRow → SessRow),
      (∀ r, (f r).id = r.id ∧ (f r).external_session_id = r.external_session_id) →
      ∀ r1 ∈ db.map f, ∃ r ∈ db,
        r1.id = r.id ∧ r1.external_session_id = r.external_session_id := by
    intro f hf r1 h1
    rcases List.mem_map.mp h1 with ⟨r, hr, hfr⟩
    exact ⟨r, hr, by rw [← hfr]; exact (hf r).1, by rw [← hfr]; exact (hf r).2⟩
  rcases excl with _ | e
  · refine key _ ?_
    intro r
    by_cases h : r.external_session_id = ext <;> simp [h]
  · by_cases he : e = 0
    · simp only [markAllNotCurrent, if_pos he]
      refine key _ ?_
      intro r
      by_cases h : r.external_session_id = ext <;> simp [h]
    · simp only [markAllNotCurrent, if_neg he]
      refine key _ ?_
      intro r
      by_cases h : r.external_session_id = ext ∧ r.id ≠ e <;> simp [h]

theorem mark_none_not_current (db : DB) (ext : Nat) :
    ∀ r1 ∈ markAllNotCurrent db ext none,
      (r1.is_current && decide (r1.external_session_id = ext)) = false := by
  intro r1 h1
  simp only [markAllNotCurrent] at h1
  rcases List.mem_map.mp h1 with ⟨r, _, hfr⟩
  by_cases hext : r.external_session_id = ext
  · rw [← hfr]
    simp [hext]
  · rw [← hfr]
    simp [hext]

theorem mark_some_not_current (db : DB) (ext : Nat) (e : Nat) :
    ∀ r1 ∈ markAllNotCurrent db ext (some e),
      r1.external_session_id = ext → r1.is_current = true → r1.id = e := by
  intro r1 h1 hext hcur
  by_cases he : e = 0
  · simp only [markAllNotCurrent, if_pos he] at h1
    rcases List.mem_map.mp h1 with ⟨r, _, hfr⟩
    by_cases hr : r.external_session_id = ext
    · rw [← hfr] at hcur
      simp [hr] at hcur
    · rw [← hfr] at hext
      simp [hr] at hext
  · simp only [markAllNotCurrent, if_neg he] at h1
    rcases List.mem_map.mp h1 with ⟨r, _, hfr⟩
    by_cases hr : r.external_session_id = ext ∧ r.id ≠ e
    · rw [← hfr] at hcur
      simp [hr] at hcur
    · rw [← hfr] at hext hcur ⊢
      simp only [if_neg hr] at hext hcur ⊢
      rcases Decidable.not_and_iff_or_not.mp hr with h | h
      · exact absurd hext h
      · exact Decidable.not_not.mp h

theorem countP_mark_other (db : DB) (ext : Nat) (excl : Option Nat) (ext2 : Nat)
    (hne : ext2 ≠ ext) :
    (markAllNotCurrent db ext excl).countP
        (fun r => r.is_current && decide (r.external_session_id = ext2))
      = db.countP (fun r => r.is_current && decide (r.external_session_id = ext2)) := by
  have hfact : ∀ r : SessRow, r.external_session_id = ext →
      (decide (r.external_session_id = ext2)) = false := by
    intro r hr
    simp [hr, Ne.symm hne]
  rcases excl with _ | e
  · refine countP_map_pointwise _ _ db ?_
    intro r _
    by_cases h : r.external_session_id = ext
    · simp only [if_pos h]
      simp [hfact r h]
    · simp [h]
  · by_cases he : e = 0
    · simp only [markAllNotCurrent, if_pos he]
      refine countP_map_pointwise _ _ db ?_
      intro r _
      by_cases h : r.external_session_id = ext
      · simp only [if_pos h]
        simp [hfact r h]
      · simp [h]
    · simp only [markAllNotCurrent, if_neg he]
      refine countP_map_pointwise _ _ db ?_
      intro r _
      by_cases h : r.external_session_id = ext ∧ r.id ≠ e
      · simp only [if_pos h]
        simp [hfact r h.1]
      · simp [h]

theorem countP_mark_id (db : DB) (ext : Nat) (excl : Option Nat) (i : Nat) :
    (markAllNotCurrent db ext excl).countP (fun r => decide (r.id = i))
      = db.countP (fun r => decide (r.id = i)) := by
  rcases excl with _ | e
  · refine countP_map_pointwise _ _ db ?_
    intro r _
    by_cases h : r.external_session_id = ext <;> simp [h]
  · by_cases he : e = 0
    · simp only [markAllNotCurrent, if_pos he]
      refine countP_map_pointwise _ _ db ?_
      intro r _
      by_cases h : r.external_session_id = ext <;> simp [h]
    · simp only [markAllNotCurrent, if_neg he]
      refine countP_map_pointwise _ _ db ?_
      intro r _
      by_cases h : r.external_session_id = ext ∧ r.id ≠ e <;> simp [h]

theorem nodup_mark (db : DB) (ext : Nat) (excl : Option Nat) (hnd : NodupIds db) :
    NodupIds (markAllNotCurrent db ext excl) := by
  rw [NodupIds, mark_ids]
  exact hnd

theorem le_foldr_max : ∀ (l : List Nat) (x : Nat), x ∈ l → x ≤ l.foldr max 0 := by
  intro l
  induction l with
  | nil => intro x hx; cases hx
  | cons y ys ih =>
    intro x hx
    rcases List.mem_cons.mp hx with h | h
    · rw [h]
      exact le_max_left y (ys.foldr max 0)
    · exact le_trans (ih x h) (le_max_right y (ys.foldr max 0))

end SessionRepo

namespace SessionRepo

theorem currents_length (db : DB) (ext : Nat) :
    (currentsOfExt db ext).length
      = db.countP (fun r => r.is_current && decide (r.external_session_id = ext)) := by
  simp [currentsOfExt, List.countP_eq_length_filter]

theorem countP_singleton_le (p : SessRow → Bool) (a : SessRow) :
    List.countP p [a] ≤ 1 := by
  rw [List.countP_singleton]
  by_cases h : p a = true
  · simp [h]
  · simp [h]

theorem nodup_applyOp (db : DB) (op : Op) (hnd : NodupIds db) :
    NodupIds (applyOp db op) := by
  rcases op with s | s | i
  · have hids : ((if s.is_current = true then
        markAllNotCurrent db s.external_session_id none else db)).map (fun r => r.id)
        = db.map (fun r => r.id) := by
      by_cases hc : s.is_current = true
      · rw [if_pos hc, mark_ids]
      · rw [if_neg hc]
    have hnext : nextId (if s.is_current = true then
        markAllNotCurrent db s.external_session_id none else db) = nextId db := by
      simp only [nextId, hids]
    show NodupIds (_ ++ [_])
    unfold NodupIds
    rw [List.map_append]
    rw [List.nodup_append]
    refine ⟨by rw [hids]; exact hnd, List.nodup_singleton _, ?_⟩
    intro x hx hx2
    rw [hids] at hx
    simp only [List.map_cons, List.map_nil, List.mem_singleton] at hx2
    have hle := le_foldr_max (db.map (fun r => r.id)) x hx
    rw [hx2, hnext] at hle
    simp only [nextId] at hle
    omega
  · rcases hid : s.id with _ | i
    · simp only [applyOp, updateSession, hid]
      exact hnd
    · simp only [applyOp, updateSession, hid]
      unfold NodupIds
      rw [ids_map_aux _ (fun r => by by_cases h : r.id = i <;> simp [h])]
      by_cases hc : s.is_current = true
      · rw [if_pos hc, mark_ids]
        exact hnd
      · rw [if_neg hc]
        exact hnd
  · rcases hf : db.find? (fun r => decide (r.id = i)) with _ | row
    · simp only [applyOp, setCurrentSession, hf]
      exact hnd
    · simp only [applyOp, setCurrentSession, hf]
      unfold NodupIds
      rw [ids_map_aux _ (fun r => by by_cases h : r.id = i <;> simp [h]), mark_ids]
      exact hnd

theorem atMostOne_applyOp (db : DB) (op : Op) (hnd : NodupIds db)
    (h1 : AtMostOneCurrent db) (hwf : wfOp db op) :
    AtMostOneCurrent (applyOp db op) := by
  have h1c : ∀ ext2, db.countP
      (fun r => r.is_current && decide (r.external_session_id = ext2)) ≤ 1 :=
    fun ext2 => (currents_length db ext2) ▸ h1 ext2
  intro ext
  rw [currents_length]
  rcases op with s | s | i
  · have hsplit : (applyOp db (Op.create s))
        = (if s.is_current = true then
            markAllNotCurrent db s.external_session_id none else db)
          ++ [(createSession db s).2] := rfl
    rw [hsplit, countP_append_own]
    by_cases hc : s.is_current = true
    · rw [if_pos hc]
      by_cases hext : ext = s.external_session_id
      · have hz : (markAllNotCurrent db s.external_session_id none).countP
            (fun r => r.is_current && decide (r.external_session_id = ext)) = 0 := by
          refine countP_eq_zero_of _ _ ?_
          intro r hr
          rw [hext]
          exact mark_none_not_current db s.external_session_id r hr
        rw [hz]
        simpa using countP_singleton_le _ _
      · rw [countP_mark_other db s.external_session_id none ext hext]
        have hrow : ((createSession db s).2.is_current
            && decide ((createSession db s).2.external_session_id = ext)) = false := by
          have hre : (createSession db s).2.external_session_id
              = s.external_session_id := rfl
          simp [hre, Ne.symm hext]
        have hone : List.countP
            (fun r => r.is_current && decide (r.external_session_id = ext))
            [(createSession db s).2] = 0 := by
          refine countP_eq_zero_of _ _ ?_
          intro r hr
          simp only [List.mem_singleton] at hr
          rw [hr]
          exact hrow
        rw [hone]
        simpa using h1c ext
    · rw [if_neg hc]
      have hcf : s.is_current = false := by
        rcases hv : s.is_current with _ | _
        · rfl
        · exact absurd hv hc
      have hone : List.countP
          (fun r => r.is_current && decide (r.external_session_id = ext))
          [(createSession db s).2] = 0 := by
        refine countP_eq_zero_of _ _ ?_
        intro r hr
        simp only [List.mem_singleton] at hr
        have hri : (createSession db s).2.is_current = s.is_current := rfl
        rw [hr]
        simp [hri, hcf]
      rw [hone]
      simpa using h1c ext
  · rcases hid : s.id with _ | i
    · simp only [applyOp, updateSession, hid]
      exact h1c ext
    · simp only [applyOp, updateSession, hid]
      rcases hcv : s.is_current with _ | _
      · rw [if_neg (by simp [hcv])]
        refine le_trans (countP_map_imp _ _ _ db ?_) (h1c ext)
        intro r hr hprf
        by_cases hri : r.id = i
        · exfalso
          simp only [if_pos hri] at hprf
          simp [hcv] at hprf
        · simp only [if_neg hri] at hprf
          exact hprf
      · rw [show (if (true = true) then markAllNotCurrent db s.external_session_id (some i)
            else db) = markAllNotCurrent db s.external_session_id (some i) from rfl]
        by_cases hext : ext = s.external_session_id
        · subst hext
          refine le_trans
            (countP_map_imp _ (fun r => decide (r.id = i)) _
              (markAllNotCurrent db s.external_session_id (some i)) ?_) ?_
          · intro r hr hprf
            by_cases hri : r.id = i
            · simp [hri]
            · exfalso
              simp only [if_neg hri] at hprf
              simp only [Bool.and_eq_true, decide_eq_true_eq] at hprf
              exact hri
                (mark_some_not_current db s.external_session_id i r hr hprf.2 hprf.1)
          · rw [countP_mark_id]
            exact countP_id_le_one i db hnd
        · have hpt : ∀ r ∈ markAllNotCurrent db s.external_session_id (some i),
              ((fun r => r.is_current && decide (r.external_session_id = ext))
                ((fun r => if r.id = i then
                  { r with is_current := true,
                           checkpoint_count := s.checkpoint_count } else r) r))
                = (r.is_current && decide (r.external_session_id = ext)) := by
            intro r hr
            by_cases hri : r.id = i
            · rcases mark_mem_src db s.external_session_id (some i) r hr with
                ⟨r0, hr0, hid0, hext0⟩
              have hr0i : r0.id = i := by rw [← hid0, hri]
              have hrext : r.external_session_id = s.external_session_id := by
                rw [hext0]
                exact hwf i hid r0 hr0 hr0i
              simp only [if_pos hri]
              simp [hrext, Ne.symm hext]
            · simp only [if_neg hri]
          rw [countP_map_pointwise _ _ _ hpt,
            countP_mark_other db s.external_session_id (some i) ext hext]
          exact h1c ext
  · rcases hf : db.find? (fun r => decide (r.id = i)) with _ | row
    · simp only [applyOp, setCurrentSession, hf]
      exact h1c ext
    · simp only [applyOp, setCurrentSession, hf]
      by_cases hext : ext = row.external_session_id
      · subst hext
        refine le_trans
          (countP_map_imp _ (fun r => decide (r.id = i)) _
            (markAllNotCurrent db row.external_session_id none) ?_) ?_
        · intro r hr hprf
          by_cases hri : r.id = i
          · simp [hri]
          · exfalso
            simp only [if_neg hri] at hprf
            have hz := mark_none_not_current db row.external_session_id r hr
            rw [hz] at hprf
            exact Bool.false_ne_true hprf
        · rw [countP_mark_id]
          exact countP_id_le_one i db hnd
      · have hrow : row ∈ db := List.mem_of_find?_eq_some hf
        have hrowi : row.id = i := by
          have := List.find?_some hf
          exact of_decide_eq_true this
        have hpt : ∀ r ∈ markAllNotCurrent db row.external_session_id none,
            ((fun r => r.is_current && decide (r.external_session_id = ext))
              ((fun r => if r.id = i then { r with is_current := true } else r) r))
              = (r.is_current && decide (r.external_session_id = ext)) := by
          intro r hr
          by_cases hri : r.id = i
          · rcases mark_mem_src db row.external_session_id none r hr with
              ⟨r0, hr0, hid0, hext0⟩
            have hr0i : r0.id = i := by rw [← hid0, hri]
            have hr0row : r0 = row :=
              nodup_id_inj db hnd r0 hr0 row hrow (by rw [hr0i, hrowi])
            have hrext : r.external_session_id = row.external_session_id := by
              rw [hext0, hr0row]
            simp only [if_pos hri]
            simp [hrext, Ne.symm hext]
          · simp only [if_neg hri]
        rw [countP_map_pointwise _ _ _ hpt,
          countP_mark_other db row.external_session_id none ext hext]
        exact h1c ext

end SessionRepo

namespace SessionRepo

theorem WFSeq_cons (db : DB) (op : Op) (ops : List Op) :
    WFSeq db (op :: ops) ↔ wfOp db op ∧ WFSeq (applyOp db op) ops := Iff.rfl

/-- C5: over any well-formed sequence of session operations (create,
update with a session read from the store, promote to current), at
most one internal session of each external session is current
afterwards (row ids also stay distinct); moreover creating a session
as current, or promoting one, leaves it the only current session of
its external session: every other one is demoted. -/
theorem c5_at_most_one_current :
    (∀ (db : DB) (ops : List Op), NodupIds db → AtMostOneCurrent db → WFSeq db ops →
        NodupIds (applyOps db ops) ∧ AtMostOneCurrent (applyOps db ops))
      ∧ (∀ (db : DB) (s : SessVal), s.is_current = true →
          ∀ r2 ∈ (createSession db s).1, r2.is_current = true →
            r2.external_session_id = s.external_session_id →
              r2.id = (createSession db s).2.id)
      ∧ (∀ (db : DB) (i : Nat) (row : SessRow),
          db.find? (fun r => decide (r.id = i)) = some row →
          ∀ r2 ∈ (setCurrentSession db i).2, r2.is_current = true →
            r2.external_session_id = row.external_session_id → r2.id = i) := by
  refine ⟨?_, ?_, ?_⟩
  · intro db ops
    induction ops generalizing db with
    | nil => intro h1 h2 _; exact ⟨h1, h2⟩
    | cons op rest ih =>
      intro h1 h2 hwf
      rcases (WFSeq_cons db op rest).mp hwf with ⟨hwf1, hwf2⟩
      have hstep1 := nodup_applyOp db op h1
      have hstep2 := atMostOne_applyOp db op h1 h2 hwf1
      have hfold : applyOps db (op :: rest) = applyOps (applyOp db op) rest := by
        simp [applyOps]
      rw [hfold]
      exact ih (applyOp db op) hstep1 hstep2 hwf2
  · intro db s hcur r2 hr2 hc2 hext2
    have hsplit : (createSession db s).1
        = markAllNotCurrent db s.external_session_id none
            ++ [(createSession db s).2] := by
      simp only [createSession, if_pos hcur]
    rw [hsplit] at hr2
    rcases List.mem_append.mp hr2 with hmem | hmem
    · exfalso
      have hz := mark_none_not_current db s.external_session_id r2 hmem
      rw [hc2, hext2] at hz
      simp at hz
    · simp only [List.mem_singleton] at hmem
      rw [hmem]
  · intro db i row hf r2 hr2 hc2 hext2
    have hshape : (setCurrentSession db i).2
        = (markAllNotCurrent db row.external_session_id none).map
            (fun r => if r.id = i then { r with is_current := true } else r) := by
      simp only [setCurrentSession, hf]
    rw [hshape] at hr2
    rcases List.mem_map.mp hr2 with ⟨r, hr, hfr⟩
    by_cases hri : r.id = i
    · rw [← hfr]
      simp [hri]
    · exfalso
      have hgr : (if r.id = i then { r with is_current := true } else r) = r :=
        if_neg hri
      rw [hgr] at hfr
      subst hfr
      have hz := mark_none_not_current db row.external_session_id r hr
      rw [hc2, hext2] at hz
      simp at hz

/-- C5 witness: starting from the empty store, creating a current
session for external session 5 and then promoting session 1 keeps ids
distinct and at most one current session per external session. -/
theorem c5_at_most_one_current_witness :
    NodupIds (applyOps [] [Op.create ⟨none, 5, true, 0⟩, Op.setCurrent 1])
      ∧ AtMostOneCurrent (applyOps [] [Op.create ⟨none, 5, true, 0⟩, Op.setCurrent 1]) := by
  refine c5_at_most_one_current.1 [] _ ?_ ?_ ?_
  · simp [NodupIds]
  · intro ext
    simp [currentsOfExt]
  · exact ⟨trivial, trivial, trivial⟩

end SessionRepo

namespace CkptRepo

theorem mem_insertDescRow (c x : CkptRow) :
    ∀ l : List CkptRow, x ∈ insertDescRow c l ↔ x = c ∨ x ∈ l := by
  intro l
  induction l with
  | nil => simp [insertDescRow]
  | cons d ds ih =>
    by_cases h : d.created_at ≥ c.created_at
    · simp only [insertDescRow, if_pos h, List.mem_cons, ih]
      tauto
    · simp only [insertDescRow, if_neg h, List.mem_cons]

theorem mem_sortNewestFirstRow (x : CkptRow) :
    ∀ l : List CkptRow, x ∈ sortNewestFirstRow l ↔ x ∈ l := by
  intro l
  induction l with
  | nil => simp [sortNewestFirstRow]
  | cons c cs ih =>
    simp only [sortNewestFirstRow, mem_insertDescRow, ih, List.mem_cons]

theorem length_insertDescRow (c : CkptRow) :
    ∀ l : List CkptRow, (insertDescRow c l).length = l.length + 1 := by
  intro l
  induction l with
  | nil => rfl
  | cons d ds ih =>
    by_cases h : d.created_at ≥ c.created_at
    · simp only [insertDescRow, if_pos h, List.length_cons, ih]
    · simp only [insertDescRow, if_neg h, List.length_cons]

theorem length_sortNewestFirstRow :
    ∀ l : List CkptRow, (sortNewestFirstRow l).length = l.length := by
  intro l
  induction l with
  | nil => rfl
  | cons c cs ih =>
    simp only [sortNewestFirstRow, length_insertDescRow, ih, List.length_cons]

theorem row_id_inj (store : List CkptRow)
    (hnd : (store.map (fun r => r.id)).Nodup) :
    ∀ r1 ∈ store, ∀ r2 ∈ store, r1.id = r2.id → r1 = r2 := by
  induction store with
  | nil => intro r1 h1; cases h1
  | cons r rs ih =>
    intro r1 h1 r2 h2 hid
    rw [List.map_cons, List.nodup_cons] at hnd
    rcases hnd with ⟨hnotin, hnd2⟩
    rcases List.mem_cons.mp h1 with h1 | h1 <;> rcases List.mem_cons.mp h2 with h2 | h2
    · rw [h1, h2]
    · exfalso
      apply hnotin
      rw [← h1, hid]
      exact List.mem_map_of_mem (fun r => r.id) h2
    · exfalso
      apply hnotin
      rw [← h2, ← hid]
      exact List.mem_map_of_mem (fun r => r.id) h1
    · exact ih hnd2 r1 h1 r2 h2 hid

/-- C9: pruning with keep-latest N deletes only automatic checkpoints
of the given session; among those, a row survives exactly when it is
one of the N most recent automatic checkpoints; and when the session
has at most N automatic checkpoints, nothing is deleted at all. -/
theorem c9_delete_auto_checkpoints (store : List CkptRow) (sid : Nat) (N : Nat)
    (hN : 1 ≤ N) (hnd : (store.map (fun r => r.id)).Nodup) :
    (∀ r ∈ store, r.is_auto = false → r ∈ (deleteAutoCheckpoints store sid N).1)
      ∧ (∀ r ∈ store, r.internal_session_id ≠ sid →
          r ∈ (deleteAutoCheckpoints store sid N).1)
      ∧ (∀ r ∈ (deleteAutoCheckpoints store sid N).1, r ∈ store)
      ∧ (∀ r ∈ store, r.is_auto = true → r.internal_session_id = sid →
          (r ∈ (deleteAutoCheckpoints store sid N).1 ↔
            r ∈ (sortNewestFirstRow (autosOf store sid)).take N))
      ∧ ((autosOf store sid).length ≤ N →
          (deleteAutoCheckpoints store sid N).1 = store
            ∧ (deleteAutoCheckpoints store sid N).2 = 0) := by
  have hkeep : ∀ r : CkptRow,
      (!(decide (r.internal_session_id = sid) && r.is_auto
        && !(((sortNewestFirstRow (autosOf store sid)).take N).map
              (fun r => r.id)).contains r.id)) = true
      ↔ (r.internal_session_id ≠ sid ∨ r.is_auto = false
          ∨ r.id ∈ ((sortNewestFirstRow (autosOf store sid)).take N).map
              (fun r => r.id)) := by
    intro r
    by_cases h1 : r.internal_session_id = sid
    · by_cases h2 : r.is_auto = true
      · by_cases h3 : r.id ∈ ((sortNewestFirstRow (autosOf store sid)).take N).map
            (fun r => r.id)
        · simp [h1, h2, h3]
        · simp [h1, h2, h3]
      · have h2f : r.is_auto = false := by
          rcases hv : r.is_auto with _ | _
          · rfl
          · exact absurd hv h2
        simp [h1, h2f]
    · simp [h1]
  have hmem_kept : ∀ r : CkptRow, r ∈ (deleteAutoCheckpoints store sid N).1
      ↔ r ∈ store ∧ (r.internal_session_id ≠ sid ∨ r.is_auto = false
          ∨ r.id ∈ ((sortNewestFirstRow (autosOf store sid)).take N).map
              (fun r => r.id)) := by
    intro r
    constructor
    · intro h
      have h2 := List.mem_filter.mp h
      exact ⟨h2.1, (hkeep r).mp h2.2⟩
    · intro ⟨h1, h2⟩
      exact List.mem_filter.mpr ⟨h1, (hkeep r).mpr h2⟩
  refine ⟨?_, ?_, ?_, ?_, ?_⟩
  · intro r hr his
    exact (hmem_kept r).mpr ⟨hr, Or.inr (Or.inl his)⟩
  · intro r hr hsid
    exact (hmem_kept r).mpr ⟨hr, Or.inl hsid⟩
  · intro r hr
    exact ((hmem_kept r).mp hr).1
  · intro r hr hauto hsid
    constructor
    · intro h
      rcases ((hmem_kept r).mp h).2 with h2 | h2 | h2
      · exact absurd hsid h2
      · rw [hauto] at h2; cases h2
      · rcases List.mem_map.mp h2 with ⟨r2, hr2, hid2⟩
        have hr2store : r2 ∈ store := by
          have hr2sort : r2 ∈ sortNewestFirstRow (autosOf store sid) :=
            List.take_subset N _ hr2
          have hr2autos : r2 ∈ autosOf store sid :=
            (mem_sortNewestFirstRow r2 _).mp hr2sort
          exact (List.mem_filter.mp hr2autos).1
        have : r2 = r := row_id_inj store hnd r2 hr2store r hr hid2
        rw [← this]
        exact hr2
    · intro h
      exact (hmem_kept r).mpr ⟨hr, Or.inr (Or.inr
        (List.mem_map_of_mem (fun r => r.id) h))⟩
  · intro hle
    have htake : (sortNewestFirstRow (autosOf store sid)).take N
        = sortNewestFirstRow (autosOf store sid) := by
      apply List.take_of_length_le
      rw [length_sortNewestFirstRow]
      exact hle
    have hall : ∀ r ∈ store,
        (!(decide (r.internal_session_id = sid) && r.is_auto
          && !(((sortNewestFirstRow (autosOf store sid)).take N).map
                (fun r => r.id)).contains r.id)) = true := by
      intro r hr
      rw [hkeep r]
      by_cases h1 : r.internal_session_id = sid
      · by_cases h2 : r.is_auto = true
        · refine Or.inr (Or.inr ?_)
          have hrautos : r ∈ autosOf store sid :=
            List.mem_filter.mpr ⟨hr, by simp [h1, h2]⟩
          rw [htake]
          exact List.mem_map_of_mem (fun r => r.id)
            ((mem_sortNewestFirstRow r _).mpr hrautos)
        · refine Or.inr (Or.inl ?_)
          rcases hv : r.is_auto with _ | _
          · rfl
          · exact absurd hv h2
      · exact Or.inl h1
    have hfs : (deleteAutoCheckpoints store sid N).1 = store :=
      List.filter_eq_self.mpr hall
    refine ⟨hfs, ?_⟩
    have : (deleteAutoCheckpoints store sid N).2
        = store.length - (deleteAutoCheckpoints store sid N).1.length := rfl
    rw [this, hfs]
    exact Nat.sub_self _

/-- C9 witness: on a store with two automatic checkpoints and one
manual checkpoint of session 1, pruning with keep-latest 1 keeps the
manual checkpoint. -/
theorem c9_delete_auto_checkpoints_witness :
    (⟨3, 1, some ("m"), false, 30⟩ : CkptRow) ∈
      (deleteAutoCheckpoints
        [⟨1, 1, none, true, 10⟩, ⟨2, 1, none, true, 20⟩, ⟨3, 1, some ("m"), false, 30⟩]
        1 1).1 := by
  refine (c9_delete_auto_checkpoints
    [⟨1, 1, none, true, 10⟩, ⟨2, 1, none, true, 20⟩, ⟨3, 1, some ("m"), false, 30⟩]
    1 1 (le_refl 1) (by decide)).1 _ ?_ rfl
  decide

end CkptRepo
